/-
Verification of `find_emojis.py`: an emoji scanner for source trees.

The development shallowly embeds the program:
  * `is_emoji` — the Unicode code-point classifier (`is_emoji` in the source);
  * `is_in_console_log` — the console-call suppressor, built from a hand-rolled
    matcher for the regex `console\s*\.\s*(log|warn|error|info|debug)\s*\(`
    (`re.finditer`) and a bracket/quote/escape state machine (`stepState`);
  * `find_emojis_in_file` — the per-file scanner (content given as an
    `Option (List Char)`: `none` models a file that fails to open or decode);
  * `scan_directory` — the directory walker, over an explicit filesystem model
    (`FS`) listing the enumerated entries with their path components.

Lines and file contents are `List Char`; code points are `Char.toNat`.
-/
import Mathlib

namespace FindEmojis

/-! ## Character helpers

Named characters, so that quote characters never appear as character
literals in the development. -/

def dquote : Char := Char.ofNat 34

def squote : Char := Char.ofNat 39

def btick : Char := Char.ofNat 96

def bslash : Char := Char.ofNat 92

def newline : Char := Char.ofNat 10

/-- Whitespace test used both for Python's `\s` and for `str.strip`. -/
def isSpaceChar (c : Char) : Bool := c.isWhitespace

/-! ## Emoji classifier (`is_emoji`) -/

/-- The first exact-match list in `is_emoji` ("Various symbols that are
commonly used as emoji"). -/
def emojiSymbolList : List Nat :=
  [0x2764, 0x2665, 0x2666, 0x2660, 0x2663, 0x2668, 0x267F, 0x2693,
   0x26A0, 0x26A1, 0x26AA, 0x26AB, 0x26BD, 0x26BE, 0x26C4, 0x26C5,
   0x26CE, 0x26D4, 0x26EA, 0x26F2, 0x26F3, 0x26F5, 0x26FA, 0x26FD,
   0x2705, 0x270A, 0x270B, 0x2728, 0x274C, 0x274E, 0x2753, 0x2754,
   0x2755, 0x2757, 0x2795, 0x2796, 0x2797, 0x27B0, 0x27BF]

/-- The second exact-match list in `is_emoji` ("Mathematical operators that
might be emoji"). -/
def emojiMathList : List Nat := [0x2716, 0x2714, 0x2611, 0x2B50]

/-- The source's `is_emoji`, on the code point (`ord(char)`). -/
def is_emoji (code : Nat) : Bool :=
  (0x1F600 ≤ code && code ≤ 0x1F64F) ||
  (0x1F300 ≤ code && code ≤ 0x1F5FF) ||
  (0x1F680 ≤ code && code ≤ 0x1F6FF) ||
  (0x2600 ≤ code && code ≤ 0x26FF) ||
  (0x2700 ≤ code && code ≤ 0x27BF) ||
  (0x1F900 ≤ code && code ≤ 0x1F9FF) ||
  (0x1FA70 ≤ code && code ≤ 0x1FAFF) ||
  (0x1F000 ≤ code && code ≤ 0x1F02F) ||
  emojiSymbolList.contains code ||
  (0x2190 ≤ code && code ≤ 0x21FF) ||
  emojiMathList.contains code

/-- The spec's single exact-match set (§4.1): the union of the source's two
exact-match lists, as the spec lists it. -/
def specExactSet : List Nat :=
  [0x2764, 0x2665, 0x2666, 0x2660, 0x2663, 0x2668, 0x267F, 0x2693,
   0x26A0, 0x26A1, 0x26AA, 0x26AB, 0x26BD, 0x26BE, 0x26C4, 0x26C5,
   0x26CE, 0x26D4, 0x26EA, 0x26F2, 0x26F3, 0x26F5, 0x26FA, 0x26FD,
   0x2705, 0x270A, 0x270B, 0x2728, 0x274C, 0x274E, 0x2753, 0x2754,
   0x2755, 0x2757, 0x2795, 0x2796, 0x2797, 0x27B0, 0x27BF,
   0x2716, 0x2714, 0x2611, 0x2B50]

/-- The spec's nine inclusive ranges (§4.1), as a predicate. -/
def inSpecRanges (code : Nat) : Prop :=
  (0x1F600 ≤ code ∧ code ≤ 0x1F64F) ∨
  (0x1F300 ≤ code ∧ code ≤ 0x1F5FF) ∨
  (0x1F680 ≤ code ∧ code ≤ 0x1F6FF) ∨
  (0x2600 ≤ code ∧ code ≤ 0x26FF) ∨
  (0x2700 ≤ code ∧ code ≤ 0x27BF) ∨
  (0x1F900 ≤ code ∧ code ≤ 0x1F9FF) ∨
  (0x1FA70 ≤ code ∧ code ≤ 0x1FAFF) ∨
  (0x1F000 ≤ code ∧ code ≤ 0x1F02F) ∨
  (0x2190 ≤ code ∧ code ≤ 0x21FF)

/-! ## Console-call suppressor (`is_in_console_log`)

The source compiles `console\s*\.\s*(log|warn|error|info|debug)\s*\(` and
iterates non-overlapping matches with `re.finditer`.  The pattern is a chain
of literals separated by greedy `\s*`, with a prefix-free alternation, so a
direct left-to-right matcher is equivalent. -/

/-- Match a literal, returning the rest of the input. -/
def litP (pat : List Char) (l : List Char) : Option (List Char) :=
  if pat.isPrefixOf l then some (l.drop pat.length) else none

/-- The alternation `log|warn|error|info|debug`, alternatives tried left to
right as the regex engine does. -/
def kwP (l : List Char) : Option (List Char) :=
  match litP ("log".toList) l with
  | some r => some r
  | none =>
    match litP ("warn".toList) l with
    | some r => some r
    | none =>
      match litP ("error".toList) l with
      | some r => some r
      | none =>
        match litP ("info".toList) l with
        | some r => some r
        | none => litP ("debug".toList) l

/-- Try the console pattern at the head of `l`; on success return the length
of the match (which ends just after the opening parenthesis). -/
def matchConsoleAt (l : List Char) : Option Nat :=
  match litP ("console".toList) l with
  | none => none
  | some r1 =>
    match litP (['.']) (r1.dropWhile isSpaceChar) with
    | none => none
    | some r2 =>
      match kwP (r2.dropWhile isSpaceChar) with
      | none => none
      | some r3 =>
        match litP (['(']) (r3.dropWhile isSpaceChar) with
        | none => none
        | some r4 => some (l.length - r4.length)

/-- The `re.finditer` loop: scan left to right, emit each non-overlapping match as a
`(start, end)` pair of zero-based offsets, resume after the match.  `fuel`
only serves structural termination; every step consumes at least one
character, so `line.length` fuel is always enough. -/
def finditerAux (fuel : Nat) (l : List Char) (pos : Nat) : List (Nat × Nat) :=
  match fuel with
  | 0 => []
  | fuel + 1 =>
    match matchConsoleAt l with
    | some n => (pos, pos + n) :: finditerAux fuel (l.drop n) (pos + n)
    | none =>
      match l with
      | [] => []
      | _ :: rest => finditerAux fuel rest (pos + 1)

def finditer (line : List Char) : List (Nat × Nat) := finditerAux line.length line 0

/-- One step of the while-loop body in `is_in_console_log`: the state is
`(paren_count, string_char?, escaped)`; `string_char? = some q` is the
Python `in_string = True, string_char = q`. -/
def stepState (st : Nat × Option Char × Bool) (c : Char) : Nat × Option Char × Bool :=
  if st.2.2 then (st.1, st.2.1, false)
  else if c = bslash then (st.1, st.2.1, true)
  else
    match st.2.1 with
    | none =>
      if c = dquote ∨ c = squote ∨ c = btick then (st.1, some c, false)
      else if c = Char.ofNat 40 then (st.1 + 1, none, false)
      else if c = Char.ofNat 41 then (st.1 - 1, none, false)
      else (st.1, none, false)
    | some q =>
      if c = q then (st.1, none, false)
      else (st.1, some q, false)

/-- The while loop: run `stepState` over the remaining characters while the
paren counter is positive, returning the final `pos` (one past the character
that closed the call, or the line length). -/
def callEndAux : List Char → Nat → Nat × Option Char × Bool → Nat
  | [], pos, _ => pos
  | c :: rest, pos, st =>
    if st.1 = 0 then pos
    else callEndAux rest (pos + 1) (stepState st c)

/-- End position of the call whose argument list starts at offset `start`
(just after the opening parenthesis). -/
def callEnd (line : List Char) (start : Nat) : Nat :=
  callEndAux (line.drop start) start (1, none, false)

/-- The source's `is_in_console_log(line, col_position)`: true when some console-call
match's span `[match.start, pos]` (both bounds inclusive) contains `col`. -/
def is_in_console_log (line : List Char) (col : Nat) : Bool :=
  (finditer line).any (fun m => decide (m.1 ≤ col) && decide (col ≤ callEnd line m.2))

/-! ## File scanner (`find_emojis_in_file`) -/

/-- One recorded emoji occurrence (§3 Finding): 1-based line and column, the
character, and the stripped surrounding context. -/
structure Finding where
  line : Nat
  column : Nat
  emoji : Char
  context : List Char
deriving DecidableEq

/-- Python `str.strip()`. -/
def trimChars (l : List Char) : List Char :=
  ((l.dropWhile isSpaceChar).reverse.dropWhile isSpaceChar).reverse

/-- The whole-line comment test: the stripped line starts with `//` or `#`. -/
def isCommentLine (line : List Char) : Bool :=
  ("//".toList).isPrefixOf (trimChars line) || ([Char.ofNat 35]).isPrefixOf (trimChars line)

/-- The context substring: `line[max(0, col-20) : min(len(line), col+20)]`,
stripped (`col` is the 1-based column). -/
def mkContext (line : List Char) (colNum : Nat) : List Char :=
  trimChars ((line.drop (colNum - 20)).take (min line.length (colNum + 20) - (colNum - 20)))

/-- The per-character loop of `find_emojis_in_file`: `rest` is the tail of
`line` still to scan, `colNum` the 1-based column of its head. -/
def scanCharsAux (lineNum : Nat) (line : List Char) : List Char → Nat → List Finding
  | [], _ => []
  | c :: rest, colNum =>
    if is_emoji c.toNat then
      if is_in_console_log line (colNum - 1) then scanCharsAux lineNum line rest (colNum + 1)
      else ⟨lineNum, colNum, c, mkContext line colNum⟩ :: scanCharsAux lineNum line rest (colNum + 1)
    else scanCharsAux lineNum line rest (colNum + 1)

/-- The per-line body: skip comment lines entirely, otherwise scan every
character. -/
def lineFindings (lineNum : Nat) (line : List Char) : List Finding :=
  if isCommentLine line then [] else scanCharsAux lineNum line line 1

/-- Python `content.split("\n")` (on `""` yields `[""]`; a trailing newline
yields a final empty line). -/
def splitNL : List Char → List (List Char)
  | [] => [[]]
  | c :: rest =>
    if c = newline then [] :: splitNL rest
    else
      match splitNL rest with
      | [] => [[c]]
      | x :: xs => (c :: x) :: xs

/-- Loop over the enumerated lines, 1-based. -/
def scanLinesAux : List (List Char) → Nat → List Finding
  | [], _ => []
  | l :: ls, n => lineFindings n l ++ scanLinesAux ls (n + 1)

/-- The source's `find_emojis_in_file`: the content is `none` when opening or decoding the
file raises, which the source catches and turns into an empty result. -/
def find_emojis_in_file : Option (List Char) → List Finding
  | none => []
  | some content => scanLinesAux (splitNL content) 1

/-! ## Directory walker (`scan_directory`)

The filesystem is modelled as the sequence of entries `Path.rglob("*")`
enumerates: each entry carries its path components relative to the root
(`relParts`), whether it is a directory, and — for files — its decoded
content (`none` for unreadable files).  `file_path.parts` is the root's own
components followed by `relParts`. -/

structure Entry where
  relParts : List String
  isDir : Bool
  content : Option (List Char)
deriving DecidableEq

structure FS where
  rootParts : List String
  entries : List Entry

def extensions : List String := [".js", ".jsx", ".ts", ".tsx", ".css", ".scss", ".json"]

def skip_dirs : List String := ["node_modules", ".git", "dist", "build", ".next", "coverage", "__pycache__"]

/-- Python `file_path.parts`: components of the full path. -/
def entryParts (root : List String) (e : Entry) : List String := root ++ e.relParts

/-- The `pathlib` suffix of one path component: from the last dot on, provided
the dot is neither the first nor the last character. -/
def suffixOf (name : List Char) : List Char :=
  let k := (name.reverse.takeWhile (fun c => c ≠ Char.ofNat 46)).length
  if k = name.length then []
  else if 0 < name.length - 1 - k ∧ 1 ≤ k then name.drop (name.length - 1 - k) else []

/-- Python `file_path.suffix`: suffix of the final path component. -/
def entrySuffix (root : List String) (e : Entry) : String :=
  String.mk (suffixOf ((entryParts root e).getLastD "").toList)

/-- Python `any(skip_dir in file_path.parts for skip_dir in skip_dirs)`. -/
def inSkipDir (root : List String) (e : Entry) : Bool :=
  skip_dirs.any (fun d => (entryParts root e).contains d)

/-- The three `continue` filters of the walker loop, conjoined. -/
def keepFile (root : List String) (e : Entry) : Bool :=
  !e.isDir && !inSkipDir root e && extensions.contains (entrySuffix root e)

/-- Python `str(file_path.relative_to(root_path))` with posix separators. -/
def relKey (e : Entry) : String := String.intercalate "/" e.relParts

/-- The walker loop: skipped entries and entries with empty findings leave
the accumulated results untouched; a kept entry with findings is recorded
under its relative path and its findings counted. -/
def scanEntries (root : List String) : List Entry → List (String × List Finding) × Nat
  | [] => ([], 0)
  | e :: es =>
    let rest := scanEntries root es
    if keepFile root e then
      let emojis := find_emojis_in_file e.content
      if emojis.isEmpty then rest
      else ((relKey e, emojis) :: rest.1, emojis.length + rest.2)
    else rest

/-- The source's `scan_directory`: the results mapping (in enumeration order) and the
total emoji count. -/
def scan_directory (fs : FS) : List (String × List Finding) × Nat :=
  scanEntries fs.rootParts fs.entries

/-! ## Auxiliary notions and concrete inputs used by the claims -/

/-- Formalizes "the nesting counter never returns to 0 before the line ends": runs the
call-scanning state machine over the remaining characters and checks that the
paren counter stays positive throughout. -/
def neverCloses : List Char → Nat × Option Char × Bool → Bool
  | [], _ => true
  | c :: rest, st =>
    if st.1 = 0 then false
    else neverCloses rest (stepState st c)

/-- The walker filter as claim C2 words it: the excluded-name test applied to
the path components relative to the root only. -/
def keepRelative (root : List String) (e : Entry) : Bool :=
  !e.isDir && !(skip_dirs.any (fun d => e.relParts.contains d)) &&
    extensions.contains (entrySuffix root e)

/-- An unterminated console call: `console.log("😀` (no closing paren). -/
def c3Line : List Char := "console.log(".toList ++ [dquote, Char.ofNat 0x1F600]

/-- A console call followed directly by an emoji: `console.log(x)😀`. -/
def c9Line : List Char := "console.log(x)".toList ++ [Char.ofNat 0x1F600]

/-- A console call whose string argument contains a close paren:
`console.log("a)😀")x`. -/
def c4Line : List Char :=
  "console.log(".toList ++ [dquote, Char.ofNat 97, Char.ofNat 41, Char.ofNat 0x1F600, dquote,
    Char.ofNat 41, Char.ofNat 120]

/-- A whole-line comment holding an emoji: `// 😀 commented out`. -/
def c6Line : List Char :=
  "// ".toList ++ [Char.ofNat 0x1F600] ++ " commented out".toList

/-- A one-line file whose only character is an emoji. -/
def emojiContent : List Char := [Char.ofNat 0x1F600]

/-- A scan root that itself lives under a directory named `build`, holding one
perfectly scannable emoji file: the input refuting claim C2 as stated. -/
def c2CexFS : FS := ⟨["home", "build"], [⟨["a.js"], false, some emojiContent⟩]⟩

/-- A clean-rooted tree with an emoji file hidden in `node_modules`. -/
def nodeModulesFS : FS :=
  ⟨["proj"], [⟨["node_modules", "pkg", "index.js"], false, some emojiContent⟩]⟩

/-- A clean-rooted tree with two emoji files and one unreadable file. -/
def smallFS : FS :=
  ⟨["proj"],
   [⟨["a.js"], false, some emojiContent⟩,
    ⟨["sub", "b.css"], false, some emojiContent⟩,
    ⟨["broken.ts"], false, none⟩]⟩

/-! ## Claims -/

/-- C1: for every code point `c`, `is_emoji c` is true if and only if `c`
lies in one of the spec's nine inclusive ranges or in the spec's exact-match
set (which includes 0x2B50); everything outside returns false.  The function
is a total Lean function, hence defined and side-effect free on every code
point. -/
theorem c1_is_emoji_matches_spec (code : Nat) :
    is_emoji code = true ↔ (inSpecRanges code ∨ code ∈ specExactSet) := by
  simp only [is_emoji, inSpecRanges, specExactSet, emojiSymbolList, emojiMathList,
    List.contains_cons, List.contains_nil, List.mem_cons, List.not_mem_nil,
    Bool.or_eq_true, Bool.and_eq_true, decide_eq_true_eq, beq_iff_eq,
    Bool.false_eq_true, or_false]
  omega

/-- C8: `is_emoji` is extensionally the simpler predicate "in one of the nine
ranges, or exactly 0x2B50": every exact-match code point other than 0x2B50
already lies in 0x2600–0x26FF or 0x2700–0x27BF. -/
theorem c8_is_emoji_refines_to_ranges (code : Nat) :
    is_emoji code = true ↔ (inSpecRanges code ∨ code = 0x2B50) := by
  simp only [is_emoji, inSpecRanges, emojiSymbolList, emojiMathList,
    List.contains_cons, List.contains_nil, List.mem_cons, List.not_mem_nil,
    Bool.or_eq_true, Bool.and_eq_true, decide_eq_true_eq, beq_iff_eq,
    Bool.false_eq_true, or_false]
  omega

/-- When the paren counter never returns to zero, the while loop runs off the
end of the remaining characters. -/
theorem callEndAux_of_neverCloses :
    ∀ (l : List Char) (pos : Nat) (st : Nat × Option Char × Bool),
      neverCloses l st = true → callEndAux l pos st = pos + l.length
  | [], pos, st, _ => by simp [callEndAux]
  | c :: rest, pos, st, h => by
    unfold neverCloses at h
    unfold callEndAux
    by_cases h0 : st.1 = 0
    · simp [h0] at h
    · simp only [h0, if_false] at h ⊢
      rw [callEndAux_of_neverCloses rest (pos + 1) _ h]
      simp [Nat.add_comm, Nat.add_assoc, Nat.add_left_comm]

/-- C3: when a console-call match's argument list never closes before the
line ends (the nesting counter never returns to 0), the span extends to the
end of the line, so every offset from the match start through the line end is
reported as suppressed. -/
theorem c3_unterminated_call_suppressed_to_eol
    (line : List Char) (s e : Nat)
    (hmem : (s, e) ∈ finditer line)
    (hopen : neverCloses (line.drop e) (1, none, false) = true)
    (col : Nat) (hcol1 : s ≤ col) (hcol2 : col ≤ line.length) :
    is_in_console_log line col = true := by
  have hend : callEnd line e = e + (line.drop e).length :=
    callEndAux_of_neverCloses _ _ _ hopen
  have hlen : (line.drop e).length = line.length - e := by simp
  unfold is_in_console_log
  refine List.any_eq_true.mpr ⟨(s, e), hmem, ?_⟩
  simp only [Bool.and_eq_true, decide_eq_true_eq]
  exact ⟨hcol1, by omega⟩

/-- C3 witness: in `console.log("😀` the call is unterminated and the emoji
(offset 13) is suppressed. -/
theorem c3_unterminated_call_suppressed_to_eol_witness :
    is_in_console_log c3Line 13 = true :=
  c3_unterminated_call_suppressed_to_eol c3Line 0 12 (by decide) (by decide) 13
    (by decide) (by decide)

/-- C9: the suppressor's span check is inclusive of the scan's final
position, one past the call's closing parenthesis: any offset equal to the
end position of a console-call match is reported as suppressed; concretely,
in `console.log(x)😀` the scan of the call ending at the `)` (index 13)
stops at position 14, and the emoji at offset 14 — outside the argument
list — is suppressed, so the line yields no findings. -/
theorem c9_span_inclusive_of_end_position :
    (∀ (line : List Char) (s e : Nat), (s, e) ∈ finditer line →
      s ≤ callEnd line e → is_in_console_log line (callEnd line e) = true) ∧
    callEnd c9Line 12 = 14 ∧ lineFindings 1 c9Line = [] := by
  refine ⟨?_, by decide, by decide⟩
  intro line s e hmem hle
  unfold is_in_console_log
  refine List.any_eq_true.mpr ⟨(s, e), hmem, ?_⟩
  simp [hle]

/-- C9 witness: the general inclusivity part applied to `console.log(x)😀`
and its match `(0, 12)`. -/
theorem c9_span_inclusive_of_end_position_witness :
    is_in_console_log c9Line (callEnd c9Line 12) = true :=
  c9_span_inclusive_of_end_position.1 c9Line 0 12 (by decide) (by decide)

/-- C4: inside an active quoted run, a character other than the matching
quote and the backslash — in particular `(` or `)` — leaves the scan state
(including the nesting counter) unchanged, and the matching quote character
closes the run; concretely, in `console.log("a)😀")x` the call span ends
only at the unquoted `)` (scan stops at position 18) and the emoji inside
the string argument is suppressed, so the line yields no findings. -/
theorem c4_quoted_parens_not_delimiters :
    (∀ (paren : Nat) (q c : Char), (q = dquote ∨ q = squote ∨ q = btick) →
      c ≠ q → c ≠ bslash →
      stepState (paren, some q, false) c = (paren, some q, false)) ∧
    (∀ (paren : Nat) (q : Char), (q = dquote ∨ q = squote ∨ q = btick) →
      stepState (paren, some q, false) q = (paren, none, false)) ∧
    callEnd c4Line 12 = 18 ∧ lineFindings 1 c4Line = [] := by
  refine ⟨?_, ?_, by decide, by decide⟩
  · intro paren q c _ hcq hcb
    simp [stepState, hcb, hcq]
  · intro paren q hq
    rcases hq with rfl | rfl | rfl <;> rfl

/-- C4 witness: with nesting depth 3 inside a double-quoted run, a `)` does
not change the state. -/
theorem c4_quoted_parens_not_delimiters_witness :
    stepState (3, some dquote, false) (Char.ofNat 41) = (3, some dquote, false) :=
  c4_quoted_parens_not_delimiters.1 3 dquote (Char.ofNat 41) (Or.inl rfl)
    (by decide) (by decide)

/-! ### File-scanner claims -/

/-- Every finding the per-character loop emits carries the line number it was
called with. -/
theorem line_of_mem_scanCharsAux (lineNum : Nat) (line : List Char) :
    ∀ (rest : List Char) (colNum : Nat) (f : Finding),
      f ∈ scanCharsAux lineNum line rest colNum → f.line = lineNum := by
  intro rest
  induction rest with
  | nil => intro colNum f h; simp [scanCharsAux] at h
  | cons c rs ih =>
    intro colNum f h
    unfold scanCharsAux at h
    by_cases he : is_emoji c.toNat
    · by_cases hs : is_in_console_log line (colNum - 1)
      · rw [if_pos he, if_pos hs] at h
        exact ih _ f h
      · rw [if_pos he, if_neg hs] at h
        rcases List.mem_cons.mp h with rfl | h2
        · rfl
        · exact ih _ f h2
    · rw [if_neg he] at h
      exact ih _ f h

/-- Every finding of a line carries that line's number. -/
theorem line_of_mem_lineFindings (n : Nat) (l : List Char) (f : Finding)
    (h : f ∈ lineFindings n l) : f.line = n := by
  unfold lineFindings at h
  by_cases hc : isCommentLine l
  · rw [if_pos hc] at h
    simp at h
  · rw [if_neg hc] at h
    exact line_of_mem_scanCharsAux n l l 1 f h

/-- Every finding of the line loop comes from the line its line number
points at. -/
theorem mem_scanLinesAux :
    ∀ (ls : List (List Char)) (n : Nat) (f : Finding), f ∈ scanLinesAux ls n →
      ∃ j, ∃ hj : j < ls.length,
        f.line = n + j ∧ f ∈ lineFindings (n + j) (ls.get ⟨j, hj⟩)
  | [], n, f, h => by simp [scanLinesAux] at h
  | l :: ls, n, f, h => by
    unfold scanLinesAux at h
    rcases List.mem_append.mp h with h1 | h2
    · refine ⟨0, by simp, ?_, ?_⟩
      · simpa using line_of_mem_lineFindings n l f h1
      · simpa using h1
    · obtain ⟨j, hj, hline, hmem⟩ := mem_scanLinesAux ls (n + 1) f h2
      refine ⟨j + 1, by simpa using Nat.succ_lt_succ hj, by omega, ?_⟩
      have harith : n + (j + 1) = n + 1 + j := by omega
      rw [harith]
      simpa using hmem

/-- C6: a line whose stripped form begins with `//` or `#` contributes no
finding at all: every finding of the file points at some other line
number. -/
theorem c6_comment_line_emits_no_finding
    (content : List Char) (i : Nat) (hi : i < (splitNL content).length)
    (hc : isCommentLine ((splitNL content).get ⟨i, hi⟩) = true) :
    (find_emojis_in_file (some content)).all (fun f => decide (f.line ≠ i + 1)) = true := by
  refine List.all_eq_true.mpr ?_
  intro f hf
  rw [decide_eq_true_eq]
  unfold find_emojis_in_file at hf
  obtain ⟨j, hj, hline, hmem⟩ := mem_scanLinesAux (splitNL content) 1 f hf
  intro hcontra
  have hij : j = i := by omega
  subst hij
  rw [lineFindings, if_pos hc] at hmem
  simp at hmem

/-- C6 witness: the single-line file `// 😀 commented out` yields no finding
on line 1. -/
theorem c6_comment_line_emits_no_finding_witness :
    (find_emojis_in_file (some c6Line)).all (fun f => decide (f.line ≠ 0 + 1)) = true :=
  c6_comment_line_emits_no_finding c6Line 0 (by decide) (by decide)

/-- The one-step unfolding of the walker loop. -/
theorem scanEntries_cons (root : List String) (e : Entry) (es : List Entry) :
    scanEntries root (e :: es) =
      if keepFile root e then
        if (find_emojis_in_file e.content).isEmpty then scanEntries root es
        else ((relKey e, find_emojis_in_file e.content) :: (scanEntries root es).1,
          (find_emojis_in_file e.content).length + (scanEntries root es).2)
      else scanEntries root es := rfl

/-- A file whose findings are empty leaves the walker's state untouched
wherever it sits in the enumeration. -/
theorem scanEntries_drop_empty (root : List String) (e : Entry)
    (hempty : find_emojis_in_file e.content = []) :
    ∀ (a b : List Entry),
      scanEntries root (a ++ e :: b) = scanEntries root (a ++ b)
  | [], b => by
    simp only [List.nil_append]
    rw [scanEntries_cons, hempty]
    by_cases hk : keepFile root e <;> simp [hk]
  | x :: a, b => by
    simp only [List.cons_append]
    rw [scanEntries_cons, scanEntries_cons,
      scanEntries_drop_empty root e hempty a b]

/-- C5: a file that fails to open or decode (content `none`) produces the
empty sequence of findings, and the directory scan over a tree containing
such a file equals the scan with the file removed, and also the scan with
the file replaced by an empty (emoji-free) file: the failure is absorbed
locally and is indistinguishable from "no emoji here". -/
theorem c5_unreadable_file_recovered :
    find_emojis_in_file none = [] ∧
    (∀ (root parts : List String) (d : Bool) (a b : List Entry),
      scanEntries root (a ++ ⟨parts, d, none⟩ :: b) = scanEntries root (a ++ b)) ∧
    (∀ (root parts : List String) (d : Bool) (a b : List Entry),
      scanEntries root (a ++ ⟨parts, d, none⟩ :: b) =
        scanEntries root (a ++ ⟨parts, d, some []⟩ :: b)) := by
  refine ⟨rfl, ?_, ?_⟩
  · intro root parts d a b
    exact scanEntries_drop_empty root (⟨parts, d, none⟩ : Entry) rfl a b
  · intro root parts d a b
    rw [scanEntries_drop_empty root (⟨parts, d, none⟩ : Entry) rfl a b,
      scanEntries_drop_empty root (⟨parts, d, some []⟩ : Entry) rfl a b]

/-! ### Directory-walker claims -/

/-- Under a root none of whose own components is an excluded name, the
excluded-directory test over the full path reduces to the test over the
components relative to the root. -/
theorem inSkipDir_of_clean_root (root : List String) (e : Entry)
    (hroot : root.all (fun p => !skip_dirs.contains p) = true) :
    inSkipDir root e = skip_dirs.any (fun d => e.relParts.contains d) := by
  unfold inSkipDir entryParts
  rw [Bool.eq_iff_iff]
  simp only [List.any_eq_true, List.contains_eq_any_beq, List.any_append, Bool.or_eq_true]
  constructor
  · rintro ⟨d, hd, hr | hr⟩
    · exfalso
      simp only [List.all_eq_true, Bool.not_eq_true'] at hroot
      obtain ⟨p, hp, hbeq⟩ := hr
      have hdp : d = p := by simpa using hbeq
      subst hdp
      have hfalse := hroot d hp
      rw [List.contains_eq_any_beq] at hfalse
      have htrue : skip_dirs.any (fun x => d == x) = true :=
        List.any_eq_true.mpr ⟨d, hd, by simp⟩
      rw [hfalse] at htrue
      exact Bool.false_ne_true htrue
    · exact ⟨d, hd, hr⟩
  · rintro ⟨d, hd, hr⟩
    exact ⟨d, hd, Or.inr hr⟩

/-- With a clean root, the walker's filter equals the claim's relative-path
filter. -/
theorem keepFile_eq_keepRelative (root : List String) (e : Entry)
    (hroot : root.all (fun p => !skip_dirs.contains p) = true) :
    keepFile root e = keepRelative root e := by
  unfold keepFile keepRelative
  rw [inSkipDir_of_clean_root root e hroot]

/-- With a clean root, the walker records exactly the regular files with a
clean relative path, a listed extension and a non-empty finding list. -/
theorem scanEntries_clean_root (root : List String)
    (hroot : root.all (fun p => !skip_dirs.contains p) = true) :
    ∀ es : List Entry,
      (scanEntries root es).1 =
        (es.filter (fun e =>
          keepRelative root e && !(find_emojis_in_file e.content).isEmpty)).map
          (fun e => (relKey e, find_emojis_in_file e.content))
  | [] => by simp [scanEntries]
  | e :: es => by
    rw [scanEntries_cons, List.filter_cons]
    by_cases hk : keepFile root e
    · have hk' := hk
      rw [keepFile_eq_keepRelative root e hroot] at hk'
      by_cases hne : (find_emojis_in_file e.content).isEmpty
      · rw [if_pos hk, if_pos hne]
        simp only [hk', hne, Bool.and_eq_true, Bool.not_eq_true', true_and]
        rw [if_neg (by simp [hne])]
        exact scanEntries_clean_root root hroot es
      · rw [if_pos hk, if_neg hne]
        rw [if_pos (by simp [hk', hne])]
        simp only [List.map_cons]
        rw [scanEntries_clean_root root hroot es]
    · have hk' := hk
      rw [keepFile_eq_keepRelative root e hroot] at hk'
      rw [if_neg hk, if_neg (by simp [hk'])]
      exact scanEntries_clean_root root hroot es

/-- C2 (amended): provided no component of the root path itself equals an
excluded name, a file's findings are included in the report exactly when the
file is a regular file, none of its components relative to the root is an
excluded name, its extension is listed, and its findings are non-empty; in
particular a `node_modules/pkg/index.js` file never contributes. -/
theorem c2_walker_filters_relative_components (fs : FS)
    (hroot : fs.rootParts.all (fun p => !skip_dirs.contains p) = true) :
    (scan_directory fs).1 =
      (fs.entries.filter (fun e =>
        keepRelative fs.rootParts e && !(find_emojis_in_file e.content).isEmpty)).map
        (fun e => (relKey e, find_emojis_in_file e.content)) :=
  scanEntries_clean_root fs.rootParts hroot fs.entries

/-- C2 witness: a clean-rooted tree whose only file sits in `node_modules`
produces a report matching the relative filter (and hence empty). -/
theorem c2_walker_filters_relative_components_witness :
    (scan_directory nodeModulesFS).1 =
      (nodeModulesFS.entries.filter (fun e =>
        keepRelative nodeModulesFS.rootParts e &&
          !(find_emojis_in_file e.content).isEmpty)).map
        (fun e => (relKey e, find_emojis_in_file e.content)) :=
  c2_walker_filters_relative_components nodeModulesFS (by decide)

/-- C2 counterexample: with the scan root itself sitting under a directory
named `build`, the sole entry is a regular `.js` file whose relative path has
no excluded component and whose scan finds an emoji — the claim as stated
requires its findings in the report — yet the walker returns an empty report
with total 0, because the excluded-name test also inspects the root's own
components. -/
theorem c2_counterexample_root_under_build :
    c2CexFS.entries = [⟨["a.js"], false, some emojiContent⟩] ∧
    (⟨["a.js"], false, some emojiContent⟩ : Entry).isDir = false ∧
    skip_dirs.any (fun d => (⟨["a.js"], false, some emojiContent⟩ : Entry).relParts.contains d)
      = false ∧
    extensions.contains
      (entrySuffix c2CexFS.rootParts (⟨["a.js"], false, some emojiContent⟩ : Entry)) = true ∧
    find_emojis_in_file (some emojiContent) ≠ [] ∧
    scan_directory c2CexFS = ([], 0) := by
  refine ⟨rfl, rfl, by decide, by decide, ?_, by decide⟩
  decide

/-- Every recorded result comes from an enumerated entry that passed the
filter with a non-empty finding list. -/
theorem mem_scanEntries (root : List String) :
    ∀ (es : List Entry) (pr : String × List Finding), pr ∈ (scanEntries root es).1 →
      ∃ e, e ∈ es ∧ pr = (relKey e, find_emojis_in_file e.content) ∧
        (find_emojis_in_file e.content).isEmpty = false
  | [], pr, h => by simp [scanEntries] at h
  | e :: es, pr, h => by
    rw [scanEntries_cons] at h
    by_cases hk : keepFile root e
    · by_cases hne : (find_emojis_in_file e.content).isEmpty
      · rw [if_pos hk, if_pos hne] at h
        obtain ⟨e2, he2, hpr, hne2⟩ := mem_scanEntries root es pr h
        exact ⟨e2, List.mem_cons_of_mem e he2, hpr, hne2⟩
      · rw [if_pos hk, if_neg hne] at h
        rcases List.mem_cons.mp h with rfl | h2
        · exact ⟨e, List.mem_cons_self e es, rfl, Bool.not_eq_true _ ▸ by simpa using hne⟩
        · obtain ⟨e2, he2, hpr, hne2⟩ := mem_scanEntries root es pr h2
          exact ⟨e2, List.mem_cons_of_mem e he2, hpr, hne2⟩
    · rw [if_neg hk] at h
      obtain ⟨e2, he2, hpr, hne2⟩ := mem_scanEntries root es pr h
      exact ⟨e2, List.mem_cons_of_mem e he2, hpr, hne2⟩

/-- The running total is the sum of the recorded finding-list lengths. -/
theorem scanEntries_total (root : List String) :
    ∀ es : List Entry,
      (scanEntries root es).2 = ((scanEntries root es).1.map (fun pr => pr.2.length)).sum
  | [] => by simp [scanEntries]
  | e :: es => by
    rw [scanEntries_cons]
    by_cases hk : keepFile root e
    · by_cases hne : (find_emojis_in_file e.content).isEmpty
      · rw [if_pos hk, if_pos hne]
        exact scanEntries_total root es
      · rw [if_pos hk, if_neg hne]
        simp only [List.map_cons, List.sum_cons]
        rw [scanEntries_total root es]
    · rw [if_neg hk]
      exact scanEntries_total root es

/-- C7: in any report, every recorded finding list is non-empty, the total
equals the sum of the recorded lengths, and — when the enumerated relative
paths are distinct, as filesystem paths are — every enumerated file either
has a non-empty scan or appears under no key of the report. -/
theorem c7_report_invariants (fs : FS)
    (hnd : (fs.entries.map relKey).Nodup) :
    (scan_directory fs).1.all (fun pr => !pr.2.isEmpty) = true ∧
    (scan_directory fs).2 = ((scan_directory fs).1.map (fun pr => pr.2.length)).sum ∧
    fs.entries.all (fun e =>
      !(find_emojis_in_file e.content).isEmpty ||
        (scan_directory fs).1.all (fun pr => pr.1 != relKey e)) = true := by
  refine ⟨?_, scanEntries_total fs.rootParts fs.entries, ?_⟩
  · refine List.all_eq_true.mpr ?_
    intro pr hpr
    obtain ⟨e, _, rfl, hne⟩ := mem_scanEntries fs.rootParts fs.entries pr hpr
    simpa using hne
  · refine List.all_eq_true.mpr ?_
    intro e he
    by_cases hemp : (find_emojis_in_file e.content).isEmpty
    · rw [Bool.or_eq_true]
      right
      refine List.all_eq_true.mpr ?_
      intro pr hpr
      rw [bne_iff_ne]
      intro heq
      obtain ⟨e2, he2, rfl, hne⟩ := mem_scanEntries fs.rootParts fs.entries pr hpr
      have hee : e2 = e := List.inj_on_of_nodup_map hnd he2 he heq
      rw [hee, hemp] at hne
      simp at hne
    · simp [hemp]

/-- C7 witness: the invariants on a concrete three-file tree (two emoji
files, one unreadable file). -/
theorem c7_report_invariants_witness :
    (scan_directory smallFS).1.all (fun pr => !pr.2.isEmpty) = true ∧
    (scan_directory smallFS).2 =
      ((scan_directory smallFS).1.map (fun pr => pr.2.length)).sum ∧
    smallFS.entries.all (fun e =>
      !(find_emojis_in_file e.content).isEmpty ||
        (scan_directory smallFS).1.all (fun pr => pr.1 != relKey e)) = true :=
  c7_report_invariants smallFS (by decide)

/-- A root one of whose components is an excluded name poisons every
enumerated path. -/
theorem keepFile_false_of_dirty_root (root : List String) (e : Entry)
    (hroot : root.any (fun p => skip_dirs.contains p) = true) :
    keepFile root e = false := by
  have hin : inSkipDir root e = true := by
    unfold inSkipDir entryParts
    obtain ⟨p, hp, hps⟩ := List.any_eq_true.mp hroot
    rw [List.contains_eq_any_beq] at hps
    obtain ⟨d, hd, hbeq⟩ := List.any_eq_true.mp hps
    have hpd : p = d := by simpa using hbeq
    subst hpd
    refine List.any_eq_true.mpr ⟨p, hd, ?_⟩
    rw [List.contains_eq_any_beq]
    exact List.any_eq_true.mpr ⟨p, List.mem_append_left _ hp, by simp⟩
  unfold keepFile
  rw [hin]
  simp

/-- C10: the excluded-directory test inspects every component of the full
path, the root's own components included: a scan whose root path contains an
excluded name returns the empty mapping and total 0, whatever the tree
holds. -/
theorem c10_dirty_root_scans_nothing (fs : FS)
    (hroot : fs.rootParts.any (fun p => skip_dirs.contains p) = true) :
    scan_directory fs = ([], 0) := by
  unfold scan_directory
  induction fs.entries with
  | nil => rfl
  | cons e es ih =>
    rw [scanEntries_cons, if_neg (by rw [keepFile_false_of_dirty_root fs.rootParts e hroot]; exact Bool.false_ne_true)]
    exact ih

/-- C10 witness: the root `home/build` lies under a `build` directory, so its
emoji-bearing `.js` file is never scanned. -/
theorem c10_dirty_root_scans_nothing_witness :
    scan_directory c2CexFS = ([], 0) :=
  c10_dirty_root_scans_nothing c2CexFS (by decide)

end FindEmojis
